import Mathlib

/-!
# Verification of the backtester order-execution engine

Shallow embedding of `src/broker.rs` and `src/types.rs` of the backtester
repository, together with theorems settling the claims about the Broker's
order scheduling, execution, and bookkeeping behaviour.

Modelling choices:
* `f32` values (prices, quantities, cash) are modelled as exact rationals
  (`Rat`).  All concrete inputs used in theorems are exactly representable
  in `f32`, and the arithmetic the code performs on them is exact, so the
  rational model agrees with the `f32` computation there.  Note that in
  Lean `x / 0 = 0` while `f32` gives `inf`/`NaN`; no theorem below depends
  on the value of a price produced by a division by zero, only on which
  map entries exist.
* `std::collections::HashMap` is modelled as an association list with
  `insert` replacing any existing binding of the key.  Iteration in
  `process_active_orders` follows list order; none of the proved
  properties depend on the iteration order.
* `DateTime<Utc>` is modelled as an integer number of seconds;
  `Duration::hours(8)` is `28800` seconds.  `Utc::now()` in `Broker::new`
  is modelled as `0` (no claim depends on it).
* Rust's `panic!`/`todo!` aborts and `Err` returns are distinguished by
  the `Abort` type.  Since methods take `&mut self`, an early `Err` return
  leaves the broker in its partially mutated state; the embedding models
  every fallible broker method as returning `Except (Abort × Broker) Broker`,
  where the error case carries the broker state at the moment of the abort.
* The callback fields `on_execute`/`on_cancel` are arbitrary
  `fn(&mut Broker) -> Result<(), BrokerError>` in the source.  They are
  modelled by the fragment the specification discusses: a finite sequence
  of actions, each either submitting an order (`Broker::submit_order`) or
  returning an error.
-/

namespace Backtester

/-- `BrokerError` from `src/broker.rs`.  Note there is no `ConfigError`
variant. -/
inductive BrokerError where
  | InsufficientFundsForPurchase : BrokerError
  | OutOfMoneyError : BrokerError
  | InsufficientMargin : BrokerError
  | OrderIdNotFound : BrokerError
deriving DecidableEq

/-- An abnormal outcome of a broker method: either a returned
`Err(BrokerError)` or a Rust panic (from `panic!` / `todo!`), carrying the
panic message. -/
inductive Abort where
  | err : BrokerError → Abort
  | panicked : String → Abort
deriving DecidableEq

/-- `OrderSide` from `src/types.rs`. -/
inductive OrderSide where
  | Buy : OrderSide
  | Sell : OrderSide
deriving DecidableEq

/-- `OrderType` from `src/types.rs`; price parameters are `f32` in the
source, modelled as `Rat`. -/
inductive OrderType where
  | Market : OrderType
  | Limit : Rat → OrderType
  | Stop : Rat → OrderType
  | StopLimit : Rat → Rat → OrderType
  | MOC : OrderType
  | MOO : OrderType
  | LOC : Rat → OrderType
  | LOO : Rat → OrderType
deriving DecidableEq

/-- `OrderExecutionStrategy` from `src/types.rs`. -/
inductive OrderExecutionStrategy where
  | GTC : OrderExecutionStrategy
  | GTD : OrderExecutionStrategy
  | GFD : OrderExecutionStrategy
  | FOK : OrderExecutionStrategy
  | IOC : OrderExecutionStrategy
deriving DecidableEq

/-- One primitive action of an `on_execute`/`on_cancel` callback: either
raise a `BrokerError`, or call `Broker::submit_order` with an order id and
the fields of the submitted order (which may itself carry callbacks). -/
inductive CbAct where
  | raiseA : BrokerError → CbAct
  | submitA : Nat → String → Rat → OrderSide → OrderType → Int →
      OrderExecutionStrategy → Option (List CbAct) → Option (List CbAct) → CbAct

/-- `Ticker` from `src/types.rs` (`open` is a Lean keyword, hence `open_`). -/
structure Ticker where
  open_ : Rat
  high : Rat
  low : Rat
  close : Rat
  volume : Nat
  datetime : Int
deriving DecidableEq

/-- `Position` from `src/types.rs`. -/
structure Position where
  symbol : String
  amount : Rat
  price : Rat
deriving DecidableEq

/-- `Order` from `src/types.rs`.  The callback function pointers are
modelled as action lists (see `CbAct`). -/
structure Order where
  symbol : String
  quantity : Rat
  side : OrderSide
  order_type : OrderType
  datetime : Int
  execution : OrderExecutionStrategy
  on_execute : Option (List CbAct)
  on_cancel : Option (List CbAct)

/-- The `Broker` state from `src/broker.rs`. -/
structure Broker where
  name : String
  initial_cash : Rat
  commission : Rat
  leverage : Rat
  exclusive_orders : Bool
  hedging : Bool
  logging : Bool
  datetime : Int
  active_orders : List (Nat × Order)
  canceled_orders : List (Nat × Order)
  trades : List (Nat × Order)
  current_cash : Rat
  positions : List (String × Position)
  previous_ticker : Option Ticker

/-- Result type of a state-mutating broker method: on abort the partially
mutated broker state is carried along with the abort. -/
abbrev MRes := Except (Abort × Broker) Broker

/-- `HashMap::get`/lookup on the association-list model. -/
def lookupA {κ α : Type} [DecidableEq κ] (k : κ) : List (κ × α) → Option α
  | [] => none
  | (k2, v) :: rest => if k2 = k then some v else lookupA k rest

/-- `HashMap::remove`'s effect on the map: drop every binding of `k`. -/
def eraseA {κ α : Type} [DecidableEq κ] (k : κ) (l : List (κ × α)) :
    List (κ × α) :=
  l.filter (fun p => ! decide (p.1 = k))

/-- `HashMap::insert`: bind `k` to `v`, replacing any existing binding. -/
def insertA {κ α : Type} [DecidableEq κ] (k : κ) (v : α) (l : List (κ × α)) :
    List (κ × α) :=
  (k, v) :: eraseA k l

/-- `std::f32::EPSILON` = 2⁻²³, the threshold used by the Sell branch of
`Broker::execute_order`. -/
def EPS : Rat := 1 / 8388608

/-- `Broker::submit_order` (src/broker.rs lines 128–136): inserts the order
into `active_orders`, overwriting any order under the same id, and always
returns `Ok(())`. -/
def Broker.submit_order (b : Broker) (id : Nat) (order : Order) : MRes :=
  .ok { b with active_orders := insertA id order b.active_orders }

/-- Build the `Order` value submitted by a `CbAct.submitA` action. -/
def CbAct.submittedOrder (sym : String) (q : Rat) (sd : OrderSide)
    (ot : OrderType) (dt : Int) (ex : OrderExecutionStrategy)
    (onE onC : Option (List CbAct)) : Order :=
  ⟨sym, q, sd, ot, dt, ex, onE, onC⟩

/-- Run a callback (`fn(&mut Broker) -> Result<(), BrokerError>`), modelled
as the sequence of its actions: each action either returns `Err(e)` —
aborting the callback with the broker in its current state — or calls
`Broker::submit_order`. -/
def runCallback : List CbAct → Broker → MRes
  | [], b => .ok b
  | .raiseA e :: _, b => .error (.err e, b)
  | .submitA id sym q sd ot dt ex onE onC :: rest, b =>
    match b.submit_order id (CbAct.submittedOrder sym q sd ot dt ex onE onC) with
    | .ok b2 => runCallback rest b2
    | .error e => .error e

/-- `Broker::cancel_order` (src/broker.rs lines 138–152): remove the order
under `id`; if absent return `Err(OrderIdNotFound)` with the state
untouched; if present run its `on_cancel` callback (after the removal),
propagating any error.  Note: the removed order is *not* recorded in
`canceled_orders`. -/
def Broker.cancel_order (b : Broker) (id : Nat) : MRes :=
  match lookupA id b.active_orders with
  | some order =>
    let b2 : Broker := { b with active_orders := eraseA id b.active_orders }
    match order.on_cancel with
    | some cb => runCallback cb b2
    | none => .ok b2
  | none => .error (.err .OrderIdNotFound, b)

/-- `Broker::execute_order` (src/broker.rs lines 155–222): apply a fill at
`ticker.close`.  Buy: merge into any existing position with the weighted
average price and debit cash by `quantity * close`.  Sell: reduce any
existing position, re-inserting it only when `|new_amount| > f32::EPSILON`
(otherwise the entry is dropped), or open a short position; credit cash by
`quantity * close`.  Then run the `on_execute` callback, propagating its
error.  Note: the fill is *not* recorded in `trades`. -/
def Broker.execute_order (b : Broker) (order : Order) (ticker : Ticker) :
    MRes :=
  let b1 : Broker :=
    match order.side with
    | .Buy =>
      let positions2 :=
        match lookupA order.symbol b.positions with
        | some position =>
          insertA order.symbol
            ⟨order.symbol, position.amount + order.quantity,
              (position.amount * position.price +
                order.quantity * ticker.close) /
                (position.amount + order.quantity)⟩
            (eraseA order.symbol b.positions)
        | none =>
          insertA order.symbol ⟨order.symbol, order.quantity, ticker.close⟩
            b.positions
      { b with positions := positions2,
               current_cash := b.current_cash - order.quantity * ticker.close }
    | .Sell =>
      let positions2 :=
        match lookupA order.symbol b.positions with
        | some position =>
          if |position.amount - order.quantity| > EPS then
            insertA order.symbol
              ⟨order.symbol, position.amount - order.quantity,
                (position.amount * position.price -
                  order.quantity * ticker.close) /
                  (position.amount - order.quantity)⟩
              (eraseA order.symbol b.positions)
          else
            eraseA order.symbol b.positions
        | none =>
          insertA order.symbol ⟨order.symbol, -order.quantity, ticker.close⟩
            b.positions
      { b with positions := positions2,
               current_cash := b.current_cash + order.quantity * ticker.close }
  match order.on_execute with
  | some cb => runCallback cb b1
  | none => .ok b1

/-- `Broker::next_date` (src/broker.rs lines 389–394): `true` iff there is
no previous ticker, or the current clock is more than 8 hours
(28800 seconds) past the previous ticker's datetime. -/
def Broker.next_date (b : Broker) : Bool :=
  match b.previous_ticker with
  | some previous => decide (b.datetime - previous.datetime > 28800)
  | none => true

/-- One iteration of the loop of `Broker::process_active_orders`
(src/broker.rs lines 231–377) on a single `(id, order)` pair.  Returns the
updated broker and `true` when the branch ended in `continue` (the order
was executed or transformed away), `false` when control fell through to
re-insert the order into the non-executed map. -/
def Broker.processOrder (b : Broker) (id : Nat) (order : Order)
    (ticker : Ticker) : Except (Abort × Broker) (Broker × Bool) :=
  match order.order_type with
  | .Market =>
    (b.execute_order order ticker).map (fun b2 => (b2, true))
  | .Limit limit =>
    match order.side with
    | .Buy =>
      if ticker.close ≤ limit then
        (b.execute_order order ticker).map (fun b2 => (b2, true))
      else .ok (b, false)
    | .Sell =>
      if ticker.close ≥ limit then
        (b.execute_order order ticker).map (fun b2 => (b2, true))
      else .ok (b, false)
  | .Stop stop =>
    match order.side with
    | .Buy =>
      if ticker.close ≥ stop then
        (b.submit_order id
          ⟨order.symbol, order.quantity, .Buy, .Market, b.datetime,
            order.execution, order.on_execute, order.on_cancel⟩).map
          (fun b2 => (b2, true))
      else .ok (b, false)
    | .Sell =>
      if ticker.close ≤ stop then
        (b.submit_order id
          ⟨order.symbol, order.quantity, .Sell, .Market, b.datetime,
            order.execution, order.on_execute, order.on_cancel⟩).map
          (fun b2 => (b2, true))
      else .ok (b, false)
  | .StopLimit stop limit =>
    match order.side with
    | .Buy =>
      if ticker.close ≥ stop ∧ ticker.close < limit then
        (b.submit_order id
          ⟨order.symbol, order.quantity, .Buy, .Limit limit, b.datetime,
            order.execution, order.on_execute, order.on_cancel⟩).map
          (fun b2 => (b2, true))
      else .ok (b, false)
    | .Sell =>
      if ticker.close ≤ stop ∧ ticker.close > limit then
        (b.submit_order id
          ⟨order.symbol, order.quantity, .Sell, .Limit limit, b.datetime,
            order.execution, order.on_execute, order.on_cancel⟩).map
          (fun b2 => (b2, true))
      else .ok (b, false)
  | .MOC =>
    if b.next_date then
      match b.previous_ticker with
      | some previous =>
        (b.execute_order order previous).map (fun b2 => (b2, true))
      | none => .ok (b, false)
    else .ok (b, false)
  | .MOO =>
    if b.next_date then
      (b.execute_order order ticker).map (fun b2 => (b2, true))
    else
      .error (.panicked "not yet implemented", b)
  | .LOC limit =>
    if b.next_date then
      match b.previous_ticker with
      | some previous =>
        match order.side with
        | .Buy =>
          if ticker.close ≤ limit then
            (b.execute_order order previous).map (fun b2 => (b2, true))
          else .ok (b, false)
        | .Sell =>
          if ticker.close ≥ limit then
            (b.execute_order order previous).map (fun b2 => (b2, true))
          else .ok (b, false)
      | none => .ok (b, false)
    else .ok (b, false)
  | .LOO limit =>
    if b.next_date then
      match order.side with
      | .Buy =>
        if ticker.close ≤ limit then
          (b.execute_order order ticker).map (fun b2 => (b2, true))
        else .ok (b, false)
      | .Sell =>
        if ticker.close ≥ limit then
          (b.execute_order order ticker).map (fun b2 => (b2, true))
        else .ok (b, false)
    else .ok (b, false)

/-- The `for (id, order) in self.active_orders.clone()` loop of
`Broker::process_active_orders`: `snap` is the remaining part of the cloned
snapshot, `acc` the `non_executed_active_orders` map built so far. -/
def Broker.processLoop (ticker : Ticker) :
    List (Nat × Order) → Broker → List (Nat × Order) →
      Except (Abort × Broker) (Broker × List (Nat × Order))
  | [], b, acc => .ok (b, acc)
  | (id, order) :: rest, b, acc =>
    match b.processOrder id order ticker with
    | .error e => .error e
    | .ok (b2, executed) =>
      Broker.processLoop ticker rest b2
        (if executed then acc else insertA id order acc)

/-- `Broker::process_active_orders` (src/broker.rs lines 229–382): iterate
over a snapshot of `active_orders`, then replace `active_orders` wholesale
with the accumulated non-executed map. -/
def Broker.process_active_orders (b : Broker) (ticker : Ticker) : MRes :=
  match Broker.processLoop ticker b.active_orders b [] with
  | .error e => .error e
  | .ok (b2, nonExecuted) => .ok { b2 with active_orders := nonExecuted }

/-- `Broker::next` (src/broker.rs lines 116–126): set the clock from the
ticker, process the active orders, then store the ticker as previous. -/
def Broker.next (b : Broker) (ticker : Ticker) : MRes :=
  let b1 : Broker := { b with datetime := ticker.datetime }
  match b1.process_active_orders ticker with
  | .error e => .error e
  | .ok b2 => .ok { b2 with previous_ticker := some ticker }

/-- `Broker::get_datetime` (src/broker.rs lines 384–386). -/
def Broker.get_datetime (b : Broker) : Int := b.datetime

/-- `Broker::new` (src/broker.rs lines 77–114).  The source `panic!`s on an
out-of-range parameter (it has no error-returning path and `BrokerError`
has no config variant); the panic is modelled as `.error` carrying the
panic message.  `Utc::now()` is modelled as `0`. -/
def Broker.new (name : String) (initial_cash commission margin : Rat)
    (exclusive_orders hedging logging : Bool) : Except String Broker :=
  if initial_cash < 0 then
    .error ("Broker: " ++ name ++ " initial_cash should be positive.")
  else if commission > 1/10 ∨ commission < -(1/10) then
    .error ("Broker: " ++ name ++
      " commission should between -10% (market-maker's rebates) and 10% (fees).")
  else if margin < 0 ∨ margin > 1 then
    .error ("Broker: " ++ name ++ " margin should be between 0 and 1.")
  else
    .ok ⟨name, initial_cash, commission, 1 / margin, exclusive_orders,
      hedging, logging, 0, [], [], [], initial_cash, [], none⟩

/-! ## Helper definitions used by the theorems -/

/-- The projection of a method result onto the abnormal outcome, if any. -/
def abortOf : MRes → Option Abort
  | .error (a, _) => some a
  | .ok _ => none

/-- A Market Buy order with no callbacks, for fill sequences. -/
def mkBuy (sym : String) (q : Rat) : Order :=
  ⟨sym, q, .Buy, .Market, 0, .GTC, none, none⟩

/-- A tick whose every price is `c`, at time 0. -/
def mkTick (c : Rat) : Ticker := ⟨c, c, c, c, 0, 0⟩

/-- Execute a sequence of Market Buy fills `(quantity, close price)` on one
symbol through `Broker.execute_order`. -/
def applyBuyFills (sym : String) : List (Rat × Rat) → Broker → MRes
  | [], b => .ok b
  | (q, c) :: rest, b =>
    match b.execute_order (mkBuy sym q) (mkTick c) with
    | .ok b2 => applyBuyFills sym rest b2
    | .error e => .error e

/-- Total quantity of a fill sequence. -/
def sumQ : List (Rat × Rat) → Rat
  | [] => 0
  | (q, _) :: rest => q + sumQ rest

/-- Total quantity-weighted price of a fill sequence. -/
def sumQC : List (Rat × Rat) → Rat
  | [] => 0
  | (q, c) :: rest => q * c + sumQC rest

/-! ## Concrete states used by the evaluation and witness theorems -/

/-- A broker as produced by
`Broker::new("b", 100000.0, 0.0, 1.0, false, false, false)`. -/
def baseBroker : Broker :=
  ⟨"b", 100000, 0, 1, false, false, false, 0, [], [], [], 100000, [], none⟩

/-- A tick with all prices 100 at time 0. -/
def tick100 : Ticker := ⟨100, 100, 100, 100, 0, 0⟩

/-- A pending Stop Buy order, stop price 100. -/
def stopBuy : Order := ⟨"A", 10, .Buy, .Stop 100, 0, .GTC, none, none⟩

/-- Broker holding exactly the Stop Buy order under id 0. -/
def bC1 : Broker := { baseBroker with active_orders := [(0, stopBuy)] }

/-- The contingent action: submit a Stop Sell order under id 1. -/
def childStop : CbAct :=
  .submitA 1 "A" 10 .Sell (.Stop 90) 0 .GTC none none

/-- A Market Buy order whose `on_execute` callback submits the stop-loss
order `childStop` (the pattern of the Stop Loss example documented in
src/types.rs). -/
def parentMkt : Order := ⟨"A", 10, .Buy, .Market, 0, .GTC, some [childStop], none⟩

/-- Broker holding exactly the parent Market order under id 0. -/
def bC2 : Broker := { baseBroker with active_orders := [(0, parentMkt)] }

/-- A pending MarketOnOpen order. -/
def mooOrder : Order := ⟨"A", 10, .Buy, .MOO, 0, .GTC, none, none⟩

/-- Broker holding the MOO order, with a previous ticker at time 0. -/
def bC4 : Broker := { baseBroker with
  active_orders := [(0, mooOrder)], previous_ticker := some tick100 }

/-- A tick one hour (3600 s ≤ 8 h) after the previous one: not a
new-session tick. -/
def tick1h : Ticker := ⟨100, 100, 100, 100, 0, 3600⟩

/-- A Market Buy order with no callbacks. -/
def mktNoCb : Order := ⟨"A", 10, .Buy, .Market, 0, .GTC, none, none⟩

/-- Broker holding the Market order under id 0. -/
def bC9 : Broker := { baseBroker with active_orders := [(0, mktNoCb)] }

/-- A short position of −10 shares. -/
def shortPos : Position := ⟨"A", -10, 100⟩

/-- Broker holding the short position. -/
def bShort : Broker := { baseBroker with positions := [("A", shortPos)] }

/-- A Market Buy of 10 shares (covers the short exactly). -/
def buyBack : Order := ⟨"A", 10, .Buy, .Market, 0, .GTC, none, none⟩

/-- A long position of 1 + 2⁻²¹ shares (exactly representable in `f32`). -/
def tinyPos : Position := ⟨"A", 2097153/2097152, 100⟩

/-- Broker holding the 1 + 2⁻²¹-share position. -/
def bTiny : Broker := { baseBroker with positions := [("A", tinyPos)] }

/-- A Market Sell of 1 share. -/
def sellOne : Order := ⟨"A", 1, .Sell, .Market, 0, .GTC, none, none⟩

/-- The 10-share long position used in the C3 witness. -/
def sellPosW : Position := ⟨"A", 10, 100⟩

/-- Broker holding the 10-share position. -/
def bSellW : Broker := { baseBroker with positions := [("A", sellPosW)] }

/-- A Market Sell of the whole 10 shares. -/
def sellAll : Order := ⟨"A", 10, .Sell, .Market, 0, .GTC, none, none⟩

/-- Result of selling the 10 shares at close 100: position deleted, cash
credited. -/
def bSellW' : Broker :=
  { baseBroker with positions := [], current_cash := 101000 }

/-- A Market Buy of 10 shares with no callbacks (C5 witness). -/
def buyTenW : Order := ⟨"A", 10, .Buy, .Market, 0, .GTC, none, none⟩

/-- Result of filling `buyTenW` on `baseBroker` at close 100. -/
def bCashW' : Broker :=
  { baseBroker with positions := [("A", ⟨"A", 10, 100⟩)],
                    current_cash := 99000 }

/-- A Market Sell of 5 shares (for the C6 counterexample). -/
def sellFive : Order := ⟨"A", 5, .Sell, .Market, 0, .GTC, none, none⟩

/-- Two Buy fills: 10 shares at 100, then 30 shares at 200. -/
def fillsW : List (Rat × Rat) := [(10, 100), (30, 200)]

/-- Result of the two `fillsW` Buys on `baseBroker`: 40 shares at average
price 175. -/
def bAvgW' : Broker :=
  { baseBroker with positions := [("A", ⟨"A", 40, 175⟩)],
                    current_cash := 93000 }

/-- A Limit Buy at 50 (never triggered at close 100). -/
def limFifty : Order := ⟨"A", 10, .Buy, .Limit 50, 0, .GTC, none, none⟩

/-- Broker holding the Limit Buy under id 0. -/
def bC10 : Broker := { baseBroker with active_orders := [(0, limFifty)] }

/-- State after `next` on `bC10` with `tick100`: order still pending. -/
def bC10' : Broker := { bC10 with previous_ticker := some tick100 }

/-! ## Association-list, callback, and loop lemmas -/

/-- Looking up a key right after inserting it finds the inserted value. -/
theorem lookupA_insertA_self {κ α : Type} [DecidableEq κ] (k : κ) (v : α)
    (l : List (κ × α)) : lookupA k (insertA k v l) = some v := by
  simp [insertA, lookupA]

/-- After erasing a key it is no longer found. -/
theorem lookupA_eraseA_self {κ α : Type} [DecidableEq κ] (k : κ)
    (l : List (κ × α)) : lookupA k (eraseA k l) = none := by
  induction l with
  | nil => simp [eraseA, lookupA]
  | cons p rest ih =>
    by_cases hp : p.1 = k
    · simpa [eraseA, hp] using ih
    · simpa [eraseA, lookupA, hp] using ih

/-- Members of `insertA k v l` are either `(k, v)` or members of `l`. -/
theorem mem_insertA {κ α : Type} [DecidableEq κ] (k : κ) (v : α)
    (l : List (κ × α)) (p : κ × α) (h : p ∈ insertA k v l) :
    p = (k, v) ∨ p ∈ l := by
  rcases List.mem_cons.mp h with h1 | h1
  · exact Or.inl h1
  · exact Or.inr (List.mem_of_mem_filter h1)

/-- A successful lookup yields a member of the list. -/
theorem lookupA_mem {κ α : Type} [DecidableEq κ] (k : κ) (v : α) :
    ∀ l : List (κ × α), lookupA k l = some v → (k, v) ∈ l := by
  intro l
  induction l with
  | nil => intro h; simp [lookupA] at h
  | cons p rest ih =>
    intro h
    by_cases hp : p.1 = k
    · rw [lookupA, if_pos hp] at h
      obtain ⟨p1, p2⟩ := p
      simp only at hp h
      subst hp
      rw [← Option.some.inj h]
      exact List.mem_cons_self _ _
    · rw [lookupA, if_neg hp] at h
      exact List.mem_cons_of_mem _ (ih h)

/-- On a list with no duplicate keys, membership determines the lookup. -/
theorem mem_lookupA {κ α : Type} [DecidableEq κ] (k : κ) (v : α) :
    ∀ l : List (κ × α), (l.map Prod.fst).Nodup → (k, v) ∈ l →
      lookupA k l = some v := by
  intro l
  induction l with
  | nil => intro _ h; simp at h
  | cons p rest ih =>
    intro hnd hm
    rw [List.map_cons] at hnd
    obtain ⟨hp, hrest⟩ := List.nodup_cons.mp hnd
    rcases List.mem_cons.mp hm with h1 | h1
    · rw [← h1, lookupA, if_pos rfl]
    · have hk : p.1 ≠ k := by
        intro he
        exact hp (by rw [he]; exact List.mem_map_of_mem Prod.fst h1)
      rw [lookupA, if_neg hk]
      exact ih hrest h1

/-- A callback that completes successfully can only have called
`submit_order`, which touches only `active_orders`: cash and positions
are unchanged. -/
theorem runCallback_fields (cb : List CbAct) : ∀ b b2 : Broker,
    runCallback cb b = .ok b2 →
    b2.current_cash = b.current_cash ∧ b2.positions = b.positions := by
  induction cb with
  | nil => intro b b2 h; simp [runCallback] at h; subst h; exact ⟨rfl, rfl⟩
  | cons act rest ih =>
    intro b b2 h
    cases act with
    | raiseA e => simp [runCallback] at h
    | submitA id sym q sd ot dt ex onE onC =>
      simp only [runCallback, Broker.submit_order] at h
      have hh := ih _ _ h
      exact ⟨hh.1, hh.2⟩

/-- Every entry of the non-executed map produced by the processing loop
comes from the accumulator or from the snapshot being iterated. -/
theorem processLoop_mem (t : Ticker) :
    ∀ (snap : List (Nat × Order)) (b b2 : Broker)
      (acc ne : List (Nat × Order)),
      Broker.processLoop t snap b acc = .ok (b2, ne) →
      ∀ p ∈ ne, p ∈ acc ∨ p ∈ snap := by
  intro snap
  induction snap with
  | nil =>
    intro b b2 acc ne h p hp
    simp only [Broker.processLoop] at h
    injection h with h2
    injection h2 with ha hb
    exact Or.inl (hb.symm ▸ hp)
  | cons q rest ih =>
    intro b b2 acc ne h p hp
    obtain ⟨id, order⟩ := q
    simp only [Broker.processLoop] at h
    cases hpo : b.processOrder id order t with
    | error e => rw [hpo] at h; cases h
    | ok r =>
      obtain ⟨b3, executed⟩ := r
      rw [hpo] at h
      simp only at h
      rcases ih b3 b2 _ ne h p hp with h1 | h1
      · cases executed with
        | true => exact Or.inl (by simpa using h1)
        | false =>
          rcases mem_insertA id order acc p (by simpa using h1) with h2 | h2
          · exact Or.inr (h2 ▸ List.mem_cons_self _ _)
          · exact Or.inl h2
      · exact Or.inr (List.mem_cons_of_mem _ h1)

/-- After a successful `process_active_orders` pass, every pending entry
already was a pending entry before the pass. -/
theorem processActive_subset (b b2 : Broker) (t : Ticker)
    (h : Broker.process_active_orders b t = .ok b2) :
    ∀ p ∈ b2.active_orders, p ∈ b.active_orders := by
  intro p hp
  simp only [Broker.process_active_orders] at h
  cases hpl : Broker.processLoop t b.active_orders b [] with
  | error e => rw [hpl] at h; cases h
  | ok r =>
    obtain ⟨b3, ne⟩ := r
    rw [hpl] at h
    simp only at h
    have hb2 := Except.ok.inj h
    have hp2 : p ∈ ne := by rw [← hb2] at hp; exact hp
    rcases processLoop_mem t _ _ _ _ _ hpl p hp2 with h1 | h1
    · simp at h1
    · exact h1

/-- Invariant for Buy-only fill sequences: starting from a position of
`a` shares at average price `p`, a sequence of Buys adds its total
quantity and accumulates the quantity-weighted price. -/
theorem applyBuyFills_inv (sym : String) :
    ∀ (fills : List (Rat × Rat)) (b : Broker) (a p : Rat), 0 < a →
      (∀ x ∈ fills, 0 < x.1) →
      lookupA sym b.positions = some ⟨sym, a, p⟩ →
      ∃ b', applyBuyFills sym fills b = .ok b' ∧
        lookupA sym b'.positions =
          some ⟨sym, a + sumQ fills,
            (a * p + sumQC fills) / (a + sumQ fills)⟩ := by
  intro fills
  induction fills with
  | nil =>
    intro b a p ha _ hl
    refine ⟨b, rfl, ?_⟩
    rw [hl]
    norm_num [sumQ, sumQC]
    rw [mul_div_cancel_left₀ p ha.ne']
  | cons qc rest ih =>
    intro b a p ha hq hl
    obtain ⟨q, c⟩ := qc
    have hq0 : 0 < q := hq (q, c) (List.mem_cons_self _ _)
    set b1 : Broker := { b with
      positions := insertA sym
        (⟨sym, a + q, (a * p + q * c) / (a + q)⟩ : Position)
        (eraseA sym b.positions),
      current_cash := b.current_cash - q * c } with hb1
    have hexec : Broker.execute_order b (mkBuy sym q) (mkTick c) = .ok b1 := by
      simp only [Broker.execute_order, mkBuy, mkTick, hl, hb1]
    have hl2 : lookupA sym b1.positions =
        some ⟨sym, a + q, (a * p + q * c) / (a + q)⟩ :=
      lookupA_insertA_self _ _ _
    obtain ⟨b', hb', hlb'⟩ := ih b1 (a + q) ((a * p + q * c) / (a + q))
      (by positivity) (fun x hx => hq x (List.mem_cons_of_mem _ hx)) hl2
    refine ⟨b', ?_, ?_⟩
    · simp only [applyBuyFills, hexec]
      exact hb'
    · rw [hlb']
      have hcancel : (a + q) * ((a * p + q * c) / (a + q)) = a * p + q * c := by
        field_simp
      simp only [sumQ, sumQC, hcancel, Option.some.injEq, Position.mk.injEq]
      refine ⟨trivial, by ring, ?_⟩
      ring_nf

/-! ## C1 -/

/-- C1 (code bug): a pending Stop Buy with stop 100, processed by
`next` on a tick with close 100 (≥ stop).  The code resubmits a Market
order under the same id 0 — but `process_active_orders` then overwrites
`active_orders` with the snapshot of non-executed orders, so after `next`
returns the pending set is empty: the converted Market order is NOT
pending and can never fill, contradicting the claim (and the stated
intent of the Stop branch) that the Market order remains pending under
the same id and fills on a subsequent evaluation. -/
theorem stop_buy_market_order_discarded :
    Except.map (fun b => b.active_orders) (Broker.next bC1 tick100) =
      .ok [] := by
  norm_num [Broker.next, Broker.process_active_orders, Broker.processLoop,
    Broker.processOrder, Broker.submit_order, Broker.execute_order,
    runCallback, insertA, eraseA, lookupA, Broker.next_date, Except.map,
    bC1, baseBroker, stopBuy, tick100]

/-! ## C2 -/

/-- C2 (code bug): the parent Market order fills during `next` and its
`on_execute` callback calls `submit_order(1, stop-loss)`, inserting order
1 into `active_orders` — but the end of `process_active_orders` replaces
`active_orders` with the non-executed snapshot, so after `next` returns
the pending set is empty: the contingent order is NOT present, although
the claim (and the Stop Loss / Take Profit examples in the code's own
documentation in src/types.rs) require it to be pending for later ticks. -/
theorem contingent_order_discarded :
    Except.map (fun b => b.active_orders) (Broker.next bC2 tick100) =
      .ok [] := by
  norm_num [Broker.next, Broker.process_active_orders, Broker.processLoop,
    Broker.processOrder, Broker.submit_order, Broker.execute_order,
    runCallback, CbAct.submittedOrder, insertA, eraseA, lookupA,
    Broker.next_date, Except.map, bC2, baseBroker, parentMkt, childStop,
    tick100]

/-! ## C3 -/

/-- C3 (counterexample): two fills each leave a position whose amount has
magnitude within 1e-6 of zero in the positions map.  (1) Buying a −10
short back with a 10-share Buy retains the entry with amount exactly 0:
the Buy branch has no epsilon deletion at all.  (2) Selling a
(1 + 2⁻²¹)-share position down to 2⁻²¹ ≈ 4.77e-7 ≤ 1e-6 retains the
entry, because the code's threshold is `f32::EPSILON` = 2⁻²³, not 1e-6.
Both amounts are within 1e-6 of zero (last two conjuncts), refuting the
claim as stated. -/
theorem position_near_zero_retained :
    Except.map (fun b2 => lookupA "A" b2.positions)
        (Broker.execute_order bShort buyBack tick100) =
      .ok (some ⟨"A", 0, 0⟩) ∧
    Except.map (fun b2 => lookupA "A" b2.positions)
        (Broker.execute_order bTiny sellOne tick100) =
      .ok (some ⟨"A", 1/2097152, 100⟩) ∧
    |(0 : Rat)| ≤ 1/1000000 ∧ |(1/2097152 : Rat)| ≤ 1/1000000 := by
  refine ⟨?_, ?_, by norm_num, ?_⟩
  · norm_num [Broker.execute_order, runCallback, insertA, eraseA, lookupA,
      EPS, Except.map, bShort, shortPos, buyBack, baseBroker, tick100]
  · norm_num [Broker.execute_order, runCallback, insertA, eraseA, lookupA,
      EPS, Except.map, abs_of_nonneg, bTiny, tinyPos, sellOne, baseBroker,
      tick100]
  · rw [abs_of_nonneg (by norm_num : (0 : Rat) ≤ 1/2097152)]
    norm_num

/-- C3 (amended): for a fill on a symbol with an existing position, a Sell
deletes the position entry iff the resulting amount's magnitude is at most
`f32::EPSILON` = 2⁻²³ (not 1e-6), and a Buy never deletes the entry (so
buying a short back to within epsilon of zero retains it). -/
theorem fill_epsilon_deletion (b b' : Broker) (o : Order) (t : Ticker)
    (pos : Position) (hpos : lookupA o.symbol b.positions = some pos)
    (h : Broker.execute_order b o t = .ok b') :
    (o.side = .Sell →
      (lookupA o.symbol b'.positions = none ↔
        |pos.amount - o.quantity| ≤ EPS)) ∧
    (o.side = .Buy → lookupA o.symbol b'.positions ≠ none) := by
  cases hs : o.side with
  | Sell =>
    refine ⟨fun _ => ?_, ?_⟩
    swap
    · intro hb
      simp at hb
    simp only [Broker.execute_order, hs, hpos] at h
    have hpp : b'.positions =
        (if |pos.amount - o.quantity| > EPS then
          insertA o.symbol
            ⟨o.symbol, pos.amount - o.quantity,
              (pos.amount * pos.price - o.quantity * t.close) /
                (pos.amount - o.quantity)⟩
            (eraseA o.symbol b.positions)
        else eraseA o.symbol b.positions) := by
      cases hcb : o.on_execute with
      | none =>
        rw [hcb] at h
        exact (Except.ok.inj h) ▸ rfl
      | some cb =>
        rw [hcb] at h
        exact (runCallback_fields _ _ _ h).2
    by_cases he : |pos.amount - o.quantity| > EPS
    · rw [hpp, if_pos he]
      exact iff_of_false (by simp [lookupA_insertA_self]) (not_le.mpr he)
    · rw [hpp, if_neg he]
      exact iff_of_true (lookupA_eraseA_self _ _) (not_lt.mp he)
  | Buy =>
    refine ⟨?_, fun _ => ?_⟩
    · intro hb
      simp at hb
    simp only [Broker.execute_order, hs, hpos] at h
    have hpp : b'.positions =
        insertA o.symbol
          ⟨o.symbol, pos.amount + o.quantity,
            (pos.amount * pos.price + o.quantity * t.close) /
              (pos.amount + o.quantity)⟩
          (eraseA o.symbol b.positions) := by
      cases hcb : o.on_execute with
      | none =>
        rw [hcb] at h
        exact (Except.ok.inj h) ▸ rfl
      | some cb =>
        rw [hcb] at h
        exact (runCallback_fields _ _ _ h).2
    rw [hpp, lookupA_insertA_self]
    simp

/-- Witness for `fill_epsilon_deletion`: selling a 10-share position with
a 10-share Sell (remainder 0 ≤ EPS) deletes the entry. -/
theorem fill_epsilon_deletion_w :
    (sellAll.side = .Sell →
      (lookupA sellAll.symbol bSellW'.positions = none ↔
        |sellPosW.amount - sellAll.quantity| ≤ EPS)) ∧
    (sellAll.side = .Buy → lookupA sellAll.symbol bSellW'.positions ≠ none) :=
  fill_epsilon_deletion bSellW bSellW' sellAll tick100 sellPosW
    (by norm_num [lookupA, bSellW, sellPosW, baseBroker, sellAll])
    (by norm_num [Broker.execute_order, lookupA, insertA, eraseA, EPS,
      bSellW, bSellW', sellPosW, baseBroker, sellAll, tick100])

/-! ## C4 -/

/-- C4 (code bug): processing a pending MarketOnOpen order on a tick that
is NOT a new-session tick (previous tick exists, gap 1 hour ≤ 8 hours)
aborts with the `todo!()` panic (`"not yet implemented"`) instead of
keeping the order pending unchanged: in the source, the `todo!()` in the
`OrderType::MOO` arm is reached exactly when `next_date()` is false.  The
claim (and the spec) say the non-new-session branch keeps the order
pending with no panic reachable. -/
theorem moo_panics_when_not_new_session :
    abortOf (Broker.next bC4 tick1h) =
      some (.panicked "not yet implemented") := by
  norm_num [Broker.next, Broker.process_active_orders, Broker.processLoop,
    Broker.processOrder, Broker.next_date, abortOf, bC4, baseBroker,
    mooOrder, tick100, tick1h]

/-! ## C5 -/

/-- C5: every successful `execute_order` changes cash by exactly
`quantity * ticker.close` — debited for a Buy, credited for a Sell, with
no commission term — for every broker state, order, and tick (the
`on_execute` callback cannot touch cash). -/
theorem executed_cash_delta (b b' : Broker) (o : Order) (t : Ticker)
    (h : Broker.execute_order b o t = .ok b') :
    b'.current_cash =
      match o.side with
      | .Buy => b.current_cash - o.quantity * t.close
      | .Sell => b.current_cash + o.quantity * t.close := by
  cases hs : o.side <;>
    cases hcb : o.on_execute <;>
      simp only [Broker.execute_order, hs, hcb] at h
  · exact (Except.ok.inj h) ▸ rfl
  · exact ((runCallback_fields _ _ _ h).1).trans rfl
  · exact (Except.ok.inj h) ▸ rfl
  · exact ((runCallback_fields _ _ _ h).1).trans rfl

/-- Witness for `executed_cash_delta`: the concrete 10-share Buy at close
100 debits cash by exactly 1000. -/
theorem executed_cash_delta_w :
    bCashW'.current_cash =
      match buyTenW.side with
      | .Buy => baseBroker.current_cash - buyTenW.quantity * tick100.close
      | .Sell => baseBroker.current_cash + buyTenW.quantity * tick100.close :=
  executed_cash_delta baseBroker bCashW' buyTenW tick100
    (by norm_num [Broker.execute_order, lookupA, insertA, eraseA,
      bCashW', buyTenW, baseBroker, tick100])

/-! ## C6 -/

/-- C6 (counterexample): buy 10 shares at 100 (flat before), then sell 5
at 110.  The position afterwards is 5 shares at stored average price 90,
while the quantity-weighted mean of the same-direction (Buy) fills since
flat is 10·100/10 = 100 ≠ 90: the Sell branch folds the sell price into
the average, so the invariant fails under interleaving. -/
theorem interleaved_average_price_ce :
    Except.map (fun b2 => lookupA "A" b2.positions)
        ((Broker.execute_order baseBroker (mkBuy "A" 10) (mkTick 100)).bind
          (fun b2 => b2.execute_order sellFive (mkTick 110))) =
      .ok (some ⟨"A", 5, 90⟩) ∧ ((90 : Rat) = 10 * 100 / 10 → False) := by
  constructor
  · norm_num [Broker.execute_order, runCallback, insertA, eraseA, lookupA,
      EPS, Except.map, Except.bind, abs_of_nonneg, mkBuy, mkTick, sellFive,
      baseBroker]
  · norm_num

/-- C6 (amended): for Buy-only (same-direction) fill sequences starting
from a flat symbol, the position's average price is the quantity-weighted
mean of the fill prices; the claim's extension to interleaved Sell fills
does not hold (see the counterexample). -/
theorem buy_only_weighted_average (sym : String) (fills : List (Rat × Rat))
    (b b' : Broker) (h0 : lookupA sym b.positions = none)
    (hq : ∀ x ∈ fills, 0 < x.1) (hne : fills ≠ [])
    (h : applyBuyFills sym fills b = .ok b') :
    lookupA sym b'.positions =
      some ⟨sym, sumQ fills, sumQC fills / sumQ fills⟩ := by
  cases fills with
  | nil => exact absurd rfl hne
  | cons qc rest =>
    obtain ⟨q, c⟩ := qc
    have hq0 : 0 < q := hq (q, c) (List.mem_cons_self _ _)
    set b1 : Broker := { b with
      positions := insertA sym (⟨sym, q, c⟩ : Position) b.positions,
      current_cash := b.current_cash - q * c } with hb1
    have hexec : Broker.execute_order b (mkBuy sym q) (mkTick c) = .ok b1 := by
      simp only [Broker.execute_order, mkBuy, mkTick, h0, hb1]
    have hl2 : lookupA sym b1.positions = some ⟨sym, q, c⟩ :=
      lookupA_insertA_self _ _ _
    obtain ⟨b'', hb'', hlb''⟩ := applyBuyFills_inv sym rest b1 q c hq0
      (fun x hx => hq x (List.mem_cons_of_mem _ hx)) hl2
    simp only [applyBuyFills, hexec] at h
    have hb : b'' = b' := by
      rw [hb''] at h
      exact Except.ok.inj h
    rw [← hb, hlb'']
    simp only [sumQ, sumQC]

/-- Witness for `buy_only_weighted_average`: two Buys (10 @ 100, 30 @ 200)
from flat yield 40 shares at average 7000/40 = 175. -/
theorem buy_only_weighted_average_w :
    lookupA "A" bAvgW'.positions =
      some ⟨"A", sumQ fillsW, sumQC fillsW / sumQ fillsW⟩ :=
  buy_only_weighted_average "A" fillsW baseBroker bAvgW'
    (by norm_num [lookupA, baseBroker])
    (by norm_num [fillsW])
    (by simp [fillsW])
    (by norm_num [applyBuyFills, Broker.execute_order, mkBuy, mkTick,
      lookupA, insertA, eraseA, fillsW, bAvgW', baseBroker])

/-! ## C7 -/

/-- C7: `cancel_order` on an absent id returns `Err(OrderIdNotFound)` with
the broker state (cash, positions, pending set) exactly as it was and no
callback run; on a present id the order is removed from the pending set
and then its `on_cancel` callback, if any, is run on the updated broker,
its error propagated. -/
theorem cancel_order_spec (b : Broker) (id : Nat) :
    (lookupA id b.active_orders = none →
      Broker.cancel_order b id = .error (.err .OrderIdNotFound, b)) ∧
    (∀ o, lookupA id b.active_orders = some o →
      Broker.cancel_order b id =
        match o.on_cancel with
        | some cb =>
          runCallback cb { b with active_orders := eraseA id b.active_orders }
        | none => .ok { b with active_orders := eraseA id b.active_orders }) := by
  constructor
  · intro hl
    simp [Broker.cancel_order, hl]
  · intro o hl
    simp only [Broker.cancel_order, hl]

/-- Witness for `cancel_order_spec`: cancelling id 0 on a broker with no
pending orders returns `OrderIdNotFound` and the unchanged state. -/
theorem cancel_order_spec_w :
    Broker.cancel_order baseBroker 0 =
      .error (.err .OrderIdNotFound, baseBroker) :=
  (cancel_order_spec baseBroker 0).1 (by norm_num [lookupA, baseBroker])

/-! ## C8 -/

/-- C8 (counterexample): construction with `initial_cash = -1` aborts with
the `panic!` message — the source has no error-returning path and
`BrokerError` has no `ConfigError` variant, so the claim that an invalid
configuration "fails by returning a ConfigError result (rather than …
aborting some other way)" is false: it aborts by panicking. -/
theorem new_negative_cash_panics :
    Broker.new "b" (-1) 0 1 false false false =
      .error "Broker: b initial_cash should be positive." := by
  norm_num [Broker.new]
  rfl

/-- C8 (amended): construction with `initial_cash < 0`, commission outside
[−0.1, 0.1], or margin outside [0, 1] panics (modelled as the `.error`
message), so no Broker in an invalid configuration is ever produced;
construction with parameters inside the bounds succeeds with
`current_cash = initial_cash` (and `leverage = 1/margin`). -/
theorem new_validation (name : String) (ic comm marg : Rat) (eo hg lg : Bool) :
    (¬ ic < 0 → ¬ (comm > 1/10 ∨ comm < -(1/10)) → ¬ (marg < 0 ∨ marg > 1) →
      Broker.new name ic comm marg eo hg lg =
        .ok ⟨name, ic, comm, 1 / marg, eo, hg, lg, 0, [], [], [], ic, [],
          none⟩) ∧
    ((ic < 0 ∨ comm > 1/10 ∨ comm < -(1/10) ∨ marg < 0 ∨ marg > 1) →
      ∃ msg, Broker.new name ic comm marg eo hg lg = .error msg) := by
  constructor
  · intro h1 h2 h3
    simp only [Broker.new, if_neg h1, if_neg h2, if_neg h3]
  · intro hbad
    by_cases h1 : ic < 0
    · exact ⟨"Broker: " ++ name ++ " initial_cash should be positive.",
        by simp only [Broker.new, if_pos h1]⟩
    by_cases h2 : comm > 1/10 ∨ comm < -(1/10)
    · exact ⟨"Broker: " ++ name ++
        " commission should between -10% (market-maker's rebates) and 10% (fees).",
        by simp only [Broker.new, if_neg h1, if_pos h2]⟩
    have h3 : marg < 0 ∨ marg > 1 := by tauto
    exact ⟨"Broker: " ++ name ++ " margin should be between 0 and 1.",
      by simp only [Broker.new, if_neg h1, if_neg h2, if_pos h3]⟩

/-- Witness for `new_validation`: in-bounds parameters produce a broker
with `current_cash = initial_cash = 100`. -/
theorem new_validation_w :
    Broker.new "x" 100 0 1 false false false =
      .ok ⟨"x", 100, 0, 1 / 1, false, false, false, 0, [], [], [], 100, [],
        none⟩ :=
  (new_validation "x" 100 0 1 false false false).1
    (by norm_num) (by norm_num) (by norm_num)

/-! ## C9 -/

/-- C9 (code bug): orders leaving the pending set are never recorded in
the audit maps.  Cancelling pending order 0 leaves `canceled_orders`
empty, and filling it via `next` leaves `trades` empty: the source never
inserts into either map, although the fields' own comments describe them
as keeping track of all cancelled orders and all executed trades, and the
claim requires every removal to be recorded. -/
theorem audit_trail_never_written :
    Except.map (fun b => b.canceled_orders) (Broker.cancel_order bC9 0) =
        .ok [] ∧
      Except.map (fun b => b.trades) (Broker.next bC9 tick100) = .ok [] := by
  constructor
  · norm_num [Broker.cancel_order, lookupA, eraseA, Except.map, bC9,
      baseBroker, mktNoCb]
  · norm_num [Broker.next, Broker.process_active_orders, Broker.processLoop,
      Broker.processOrder, Broker.execute_order, runCallback, insertA,
      eraseA, lookupA, Except.map, bC9, baseBroker, mktNoCb, tick100]

/-! ## C10 -/

/-- C10: across every successful `next` call (on a well-formed pending map
with no duplicate ids), the pending-order set never grows: every order
pending after the call was already pending under the same id before it,
because the pass ends by replacing `active_orders` with the snapshot of
non-executed orders, discarding everything submitted during the pass. -/
theorem pending_set_never_grows (b b' : Broker) (t : Ticker)
    (hnd : (b.active_orders.map Prod.fst).Nodup)
    (h : Broker.next b t = .ok b') :
    ∀ id o, lookupA id b'.active_orders = some o →
      lookupA id b.active_orders = some o := by
  intro id o hl
  simp only [Broker.next] at h
  cases hpa : Broker.process_active_orders { b with datetime := t.datetime } t with
  | error e => rw [hpa] at h; cases h
  | ok b2 =>
    rw [hpa] at h
    simp only at h
    have hb' := Except.ok.inj h
    have hmem : (id, o) ∈ b2.active_orders := by
      apply lookupA_mem id o
      rw [← hb'] at hl
      exact hl
    have hsub := processActive_subset _ _ _ hpa (id, o) hmem
    exact mem_lookupA id o b.active_orders hnd hsub

/-- Witness for `pending_set_never_grows`: an untriggered Limit Buy at 50
is still pending after `next` on a close of 100, and it was pending
before. -/
theorem pending_set_never_grows_w :
    lookupA 0 bC10.active_orders = some limFifty :=
  pending_set_never_grows bC10 bC10' tick100
    (by norm_num [bC10, baseBroker])
    (by norm_num [Broker.next, Broker.process_active_orders,
      Broker.processLoop, Broker.processOrder, insertA, eraseA,
      bC10, bC10', baseBroker, limFifty, tick100])
    0 limFifty
    (by norm_num [lookupA, bC10', bC10, baseBroker])

end Backtester
